import Mathlib

/-!
Differential-drive odometry plugin (`odometry_plugin.cpp`).

A shallow embedding of the `RobotControl` model plugin.  The plugin's `double`
values are read as elements of a linearly ordered field `α` (the rationals and
the reals are instances), so a statement about `gazebo.OnUpdate` is about the
exact arithmetic the code denotes, not about rounding.  A theorem whose
conclusion depends on the value of a quotient assumes (or fixes) a nonzero
divisor.  Everything the plugin obtains from its host (wall clock, joint
angles, random variates, `cosf`/`sinf`) is an explicit argument.

The namespace `gazebo.binary64` repeats `OnUpdate` with every operation rounded
to the nearest double; it is used where a statement is about the exact values
the code leaves in its doubles.
-/

namespace gazebo

/-- The two single-precision routines of the C maths library that `OnUpdate` calls. -/
structure Libm (α : Type) where
  cosf : α → α
  sinf : α → α

/-- A `double[3]` array, as used for `pose` and `vel`. -/
structure Array3 (α : Type) where
  e0 : α
  e1 : α
  e2 : α

/-- Modelled from the spec: the call `std::normal_distribution<double>(mean, stddev)(generator)`
of the C++ standard library, which is not part of the sources.  The generator yields a
standard variate `z` and the distribution returns `z * stddev + mean`; with `mean = 0` this is
the noise source of the specification, a draw from N(0, σ²) that is exactly 0 when σ = 0. -/
def normal_distribution {α : Type} [LinearOrderedField α] (mean stddev z : α) : α :=
  z * stddev + mean

/-- The options `Load` reads from the SDF element that end up in the plugin state
(`none` = element absent). -/
structure Sdf (α : Type) where
  radius : Option α
  axisDistance : Option α
  updateRate : Option α
  noiseOdom : Option α
  noiseVel : Option α

/-- The member variables of `RobotControl` that the two callbacks read or write. -/
structure RobotControl (α : Type) where
  posLeftOld : α
  posRightOld : α
  updateRate : α
  prevUpdateTime : α
  pose : Array3 α
  vel : Array3 α
  axisDistance : α
  radius : α
  noiseOdom : α
  noiseVel : α

/-- The fields of `geometry_msgs::Twist`. -/
structure Twist (α : Type) where
  linear_x : α
  linear_y : α
  linear_z : α
  angular_x : α
  angular_y : α
  angular_z : α

/-- The fields of `nav_msgs::Odometry` that `OnUpdate` assigns.  The orientation is kept
as the three arguments handed to `tf2::Quaternion::setRPY`. -/
structure Odometry (α : Type) where
  stamp : α
  position_x : α
  position_y : α
  rpy_roll : α
  rpy_pitch : α
  rpy_yaw : α
  twist_linear_x : α
  twist_linear_y : α
  twist_angular_z : α

/-- What the host supplies during one call of `OnUpdate`: the wall clock, the two joint
angles, the two standard variates the generator yields (right wheel first) and
`ros::Time::now()`. -/
structure Tick (α : Type) where
  wallTime : α
  posLeft : α
  posRight : α
  zR : α
  zL : α
  now : α

/-- The velocity setpoints `ROSCallback` writes to the two joints. -/
structure JointVel (α : Type) where
  right : α
  left : α

variable {α : Type} [LinearOrderedField α]

/-- Embedding of `RobotControl::Load`: parameters with their defaults, zeroed wheel positions, pose and
velocity `{0,0,0}` from the member initialisers, and `prevUpdateTime` set to the wall clock. -/
def Load (sdf : Sdf α) (wallTime : α) : RobotControl α :=
  { radius := match sdf.radius with
      | some v => v
      | none => 1075 / 10000
    axisDistance := match sdf.axisDistance with
      | some v => v
      | none => 1075 / 10000
    updateRate := match sdf.updateRate with
      | some v => v
      | none => 5 / 100
    noiseOdom := match sdf.noiseOdom with
      | some v => v
      | none => 0
    noiseVel := match sdf.noiseVel with
      | some v => v
      | none => 0
    posLeftOld := 0
    posRightOld := 0
    pose := ⟨0, 0, 0⟩
    vel := ⟨0, 0, 0⟩
    prevUpdateTime := wallTime }

/-- Local `l_R` of `OnUpdate` after the noise has been applied (lines 228 and 233). -/
def OnUpdate.l_R (s : RobotControl α) (e : Tick α) : α :=
  let l_R := s.radius * (e.posRight - s.posRightOld)
  l_R * (1 + normal_distribution 0 s.noiseOdom e.zR)

/-- Local `l_L` of `OnUpdate` after the noise has been applied (lines 229 and 234). -/
def OnUpdate.l_L (s : RobotControl α) (e : Tick α) : α :=
  let l_L := s.radius * (e.posLeft - s.posLeftOld)
  l_L * (1 + normal_distribution 0 s.noiseOdom e.zL)

/-- Local `ds` of `OnUpdate` (line 237). -/
def OnUpdate.ds (s : RobotControl α) (e : Tick α) : α :=
  (OnUpdate.l_R s e + OnUpdate.l_L s e) / 2

/-- Local `dphi` of `OnUpdate` (line 238). -/
def OnUpdate.dphi (s : RobotControl α) (e : Tick α) : α :=
  (OnUpdate.l_R s e - OnUpdate.l_L s e) / (2 * s.axisDistance)

/-- Embedding of `RobotControl::OnUpdate`: the new plugin state and the message handed to
`rosPub.publish`, if any. -/
def OnUpdate (m : Libm α) (s : RobotControl α) (e : Tick α) :
    RobotControl α × Option (Odometry α) :=
  let time_tmp := e.wallTime
  let dt := time_tmp - s.prevUpdateTime
  if dt < s.updateRate then
    (s, none)
  else
    let posLeft := e.posLeft
    let posRight := e.posRight
    let ds := OnUpdate.ds s e
    let dphi := OnUpdate.dphi s e
    let pose0 := s.pose.e0 + m.cosf s.pose.e2 * ds
    let pose1 := s.pose.e1 + m.sinf s.pose.e2 * ds
    let vel0 := (m.cosf s.pose.e2 * ds) / dt
    let vel1 := (m.sinf s.pose.e2 * ds) / dt
    let pose2 := s.pose.e2 + dphi
    let vel2 := dphi / dt
    let msg_out : Odometry α :=
      { stamp := e.now
        position_x := pose0
        position_y := pose1
        rpy_roll := 0
        rpy_pitch := 0
        rpy_yaw := pose2
        twist_linear_x := vel0
        twist_linear_y := vel1
        twist_angular_z := vel2 }
    ({ s with
        pose := ⟨pose0, pose1, pose2⟩
        vel := ⟨vel0, vel1, vel2⟩
        posRightOld := posRight
        posLeftOld := posLeft
        prevUpdateTime := time_tmp },
      some msg_out)

/-- Embedding of `RobotControl::ROSCallback`: the setpoints written to the right and left joint; `zR`
and `zL` are the standard variates the generator yields, in call order. -/
def ROSCallback (s : RobotControl α) (msg : Twist α) (zR zL : α) : JointVel α :=
  let velRight := (msg.linear_x + s.axisDistance * msg.angular_z) / s.radius
  let velLeft := (msg.linear_x - s.axisDistance * msg.angular_z) / s.radius
  let velRight := velRight * (1 + normal_distribution 0 s.noiseVel zR)
  let velLeft := velLeft * (1 + normal_distribution 0 s.noiseVel zL)
  { right := velRight, left := velLeft }

/-- The guard of `OnUpdate` lets the call through (`dt < updateRate` is false). -/
def accepted (s : RobotControl α) (e : Tick α) : Prop :=
  ¬ (e.wallTime - s.prevUpdateTime < s.updateRate)

instance (s : RobotControl α) (e : Tick α) : Decidable (accepted s e) :=
  inferInstanceAs (Decidable (¬ (e.wallTime - s.prevUpdateTime < s.updateRate)))

/-- The plugin state after the host has fired the update event once per element of `es`. -/
def runState (m : Libm α) : RobotControl α → List (Tick α) → RobotControl α
  | s, [] => s
  | s, e :: es => runState m (OnUpdate m s e).1 es

/-- The odometry messages published while the update event fires once per element of `es`,
oldest first. -/
def runPublished (m : Libm α) : RobotControl α → List (Tick α) → List (Odometry α)
  | _, [] => []
  | s, e :: es => (OnUpdate m s e).2.toList ++ runPublished m (OnUpdate m s e).1 es

/-- The wall-clock readings of the calls of `OnUpdate` that pass the guard, oldest first. -/
def runAccepted (m : Libm α) : RobotControl α → List (Tick α) → List α
  | _, [] => []
  | s, e :: es =>
    (if accepted s e then [e.wallTime] else []) ++ runAccepted m (OnUpdate m s e).1 es

/-- The value of `prevUpdateTime` before the first call and after each call of `OnUpdate`. -/
def runPrevUpdateTime (m : Libm α) : RobotControl α → List (Tick α) → List α
  | s, [] => [s.prevUpdateTime]
  | s, e :: es => s.prevUpdateTime :: runPrevUpdateTime m (OnUpdate m s e).1 es

/-- The values of `dphi` computed by the calls of `OnUpdate` that pass the guard, oldest
first. -/
def runDphi (m : Libm α) : RobotControl α → List (Tick α) → List α
  | _, [] => []
  | s, e :: es =>
    (if accepted s e then [OnUpdate.dphi s e] else []) ++ runDphi m (OnUpdate m s e).1 es

/-- Every call of `OnUpdate` in the run passes the guard. -/
def AllAccepted (m : Libm α) : RobotControl α → List (Tick α) → Prop
  | _, [] => True
  | s, e :: es => accepted s e ∧ AllAccepted m (OnUpdate m s e).1 es

/-- The invariant of straight-line motion: heading and `y` are zero, `x` is the arc
travelled by the right wheel, and both stored wheel angles agree. -/
def StraightLine (s : RobotControl α) : Prop :=
  s.pose.e2 = 0 ∧ s.pose.e1 = 0 ∧ s.pose.e0 = s.radius * s.posRightOld ∧
    s.posLeftOld = s.posRightOld

/-! ## The same code with every operation rounded to a double -/

namespace binary64

/-- The integer nearest to `n / d`, the even one on a tie. -/
def roundNearestEven (n d : ℕ) : ℕ :=
  let q := n / d
  let r := n % d
  if 2 * r < d then q
  else if d < 2 * r then q + 1
  else if q % 2 = 0 then q else q + 1

/-- For `fuel ≥ n ≥ 1`, the exponent `a` with `2 ^ a ≤ n < 2 ^ (a + 1)`. -/
def floorLog2 : ℕ → ℕ → ℕ
  | 0, _ => 0
  | fuel + 1, n => if n ≤ 1 then 0 else floorLog2 fuel (n / 2) + 1

/-- Modelled from the spec: "all numeric values are IEEE-754 double" (section 4.A).  The
rounding of a rational to the nearest binary64 number, ties to even, is not part of the
sources: for `x = ± n / d` with `2 ^ E ≤ n / d < 2 ^ (E + 1)` the result is
`± roundNearestEven (n / d * 2 ^ (52 - E)) * 2 ^ (E - 52)`, a number with a 53-bit significand.
Exponent range, subnormals and non-finite values are not modelled; every value below lies
between `2 ^ (-60)` and `2 ^ 60` or is zero. -/
def round64 (x : ℚ) : ℚ :=
  if x.num = 0 then 0
  else
    let n := x.num.natAbs
    let d := x.den
    let a := floorLog2 n n
    let b := floorLog2 d d
    let lo := if d * 2 ^ a ≤ n * 2 ^ b then 0 else 1
    let mant := roundNearestEven (n * 2 ^ (52 + b + lo)) (d * 2 ^ a)
    let r : ℚ := mkRat (mant * 2 ^ a) (2 ^ (52 + b + lo))
    if x.num < 0 then -r else r

/-- The `double` sum `x + y`. -/
def fadd (x y : ℚ) : ℚ := round64 (x + y)

/-- The `double` difference `x - y`. -/
def fsub (x y : ℚ) : ℚ := round64 (x - y)

/-- The `double` product `x * y`. -/
def fmul (x y : ℚ) : ℚ := round64 (x * y)

/-- The `double` quotient `x / y`. -/
def fdiv (x y : ℚ) : ℚ := round64 (x / y)

/-- Modelled from the spec: the draw `z * stddev + mean` of `gazebo.normal_distribution`,
computed in doubles. -/
def normal_distribution (mean stddev z : ℚ) : ℚ :=
  fadd (fmul z stddev) mean

/-- Local `l_R` of `OnUpdate` after the noise has been applied (lines 228 and 233). -/
def OnUpdate.l_R (s : RobotControl ℚ) (e : Tick ℚ) : ℚ :=
  let l_R := fmul s.radius (fsub e.posRight s.posRightOld)
  fmul l_R (fadd 1 (normal_distribution 0 s.noiseOdom e.zR))

/-- Local `l_L` of `OnUpdate` after the noise has been applied (lines 229 and 234). -/
def OnUpdate.l_L (s : RobotControl ℚ) (e : Tick ℚ) : ℚ :=
  let l_L := fmul s.radius (fsub e.posLeft s.posLeftOld)
  fmul l_L (fadd 1 (normal_distribution 0 s.noiseOdom e.zL))

/-- Local `ds` of `OnUpdate` (line 237). -/
def OnUpdate.ds (s : RobotControl ℚ) (e : Tick ℚ) : ℚ :=
  fdiv (fadd (OnUpdate.l_R s e) (OnUpdate.l_L s e)) 2

/-- Local `dphi` of `OnUpdate` (line 238). -/
def OnUpdate.dphi (s : RobotControl ℚ) (e : Tick ℚ) : ℚ :=
  fdiv (fsub (OnUpdate.l_R s e) (OnUpdate.l_L s e)) (fmul 2 s.axisDistance)

/-- Embedding of `RobotControl::OnUpdate` in double arithmetic: the body of
`gazebo.OnUpdate` with each `+`, `-`, `*`, `/` rounded once, in the order the source
evaluates them.  All fields of the state and of the tick are doubles. -/
def OnUpdate (m : Libm ℚ) (s : RobotControl ℚ) (e : Tick ℚ) :
    RobotControl ℚ × Option (Odometry ℚ) :=
  let time_tmp := e.wallTime
  let dt := fsub time_tmp s.prevUpdateTime
  if dt < s.updateRate then
    (s, none)
  else
    let posLeft := e.posLeft
    let posRight := e.posRight
    let ds := OnUpdate.ds s e
    let dphi := OnUpdate.dphi s e
    let pose0 := fadd s.pose.e0 (fmul (m.cosf s.pose.e2) ds)
    let pose1 := fadd s.pose.e1 (fmul (m.sinf s.pose.e2) ds)
    let vel0 := fdiv (fmul (m.cosf s.pose.e2) ds) dt
    let vel1 := fdiv (fmul (m.sinf s.pose.e2) ds) dt
    let pose2 := fadd s.pose.e2 dphi
    let vel2 := fdiv dphi dt
    let msg_out : Odometry ℚ :=
      { stamp := e.now
        position_x := pose0
        position_y := pose1
        rpy_roll := 0
        rpy_pitch := 0
        rpy_yaw := pose2
        twist_linear_x := vel0
        twist_linear_y := vel1
        twist_angular_z := vel2 }
    ({ s with
        pose := ⟨pose0, pose1, pose2⟩
        vel := ⟨vel0, vel1, vel2⟩
        posRightOld := posRight
        posLeftOld := posLeft
        prevUpdateTime := time_tmp },
      some msg_out)

/-- The guard of `OnUpdate` lets the call through, with `dt` computed in doubles. -/
def accepted (s : RobotControl ℚ) (e : Tick ℚ) : Prop :=
  ¬ (fsub e.wallTime s.prevUpdateTime < s.updateRate)

instance (s : RobotControl ℚ) (e : Tick ℚ) : Decidable (accepted s e) :=
  inferInstanceAs (Decidable (¬ (fsub e.wallTime s.prevUpdateTime < s.updateRate)))

/-- The plugin state after the host has fired the update event once per element of `es`. -/
def runState (m : Libm ℚ) : RobotControl ℚ → List (Tick ℚ) → RobotControl ℚ
  | s, [] => s
  | s, e :: es => runState m (OnUpdate m s e).1 es

/-- Every call of `OnUpdate` in the run passes the guard. -/
def AllAccepted (m : Libm ℚ) : RobotControl ℚ → List (Tick ℚ) → Prop
  | _, [] => True
  | s, e :: es => accepted s e ∧ AllAccepted m (OnUpdate m s e).1 es

/-- Decision procedure for `AllAccepted`. -/
def decAllAccepted (m : Libm ℚ) :
    (s : RobotControl ℚ) → (es : List (Tick ℚ)) → Decidable (AllAccepted m s es)
  | _, [] => isTrue trivial
  | s, e :: es =>
    match (inferInstance : Decidable (accepted s e)), decAllAccepted m (OnUpdate m s e).1 es with
    | isTrue h1, isTrue h2 => isTrue ⟨h1, h2⟩
    | isFalse h1, _ => isFalse fun h => h1 h.1
    | _, isFalse h2 => isFalse fun h => h2 h.2

instance (m : Libm ℚ) (s : RobotControl ℚ) (es : List (Tick ℚ)) :
    Decidable (AllAccepted m s es) :=
  decAllAccepted m s es

/-- The values `cosf 0 = 1` and `sinf 0 = 0` as constant functions: any `Libm` with these
two values gives the same run as long as the heading stays `0`. -/
def libmAtZero : Libm ℚ :=
  ⟨fun _ => 1, fun _ => 0⟩

/-- The end-to-end configuration in doubles: the state `Load` leaves at wall-clock time 0
when the SDF element gives `radius = 0.1`, `axisDistance = 0.2`, `updateRate = 0.1` and no
noise, each read as the nearest double. -/
def endToEnd : RobotControl ℚ :=
  Load ⟨some (round64 (1 / 10)), some (round64 (2 / 10)), some (round64 (1 / 10)), some 0,
    some 0⟩ 0

/-- Ten calls of `OnUpdate`, a quarter of a second apart, between which both wheels advance
by exactly 1 rad; the last reading is 10 rad. -/
def tenTicks : List (Tick ℚ) :=
  [⟨1 / 4, 1, 1, 0, 0, 0⟩, ⟨2 / 4, 2, 2, 0, 0, 0⟩, ⟨3 / 4, 3, 3, 0, 0, 0⟩,
    ⟨4 / 4, 4, 4, 0, 0, 0⟩, ⟨5 / 4, 5, 5, 0, 0, 0⟩, ⟨6 / 4, 6, 6, 0, 0, 0⟩,
    ⟨7 / 4, 7, 7, 0, 0, 0⟩, ⟨8 / 4, 8, 8, 0, 0, 0⟩, ⟨9 / 4, 9, 9, 0, 0, 0⟩,
    ⟨10 / 4, 10, 10, 0, 0, 0⟩]

/-- One call of `OnUpdate` at wall-clock time `0.3` (as a double) at which both wheels
have advanced by 3 rad. -/
def threeRadTick : Tick ℚ :=
  ⟨round64 (3 / 10), 3, 3, 0, 0, 0⟩

/-- The part of the straight-line invariant that survives rounding: heading and `y` are
zero and both stored wheel angles agree. -/
def StraightLine (s : RobotControl ℚ) : Prop :=
  s.pose.e2 = 0 ∧ s.pose.e1 = 0 ∧ s.posLeftOld = s.posRightOld

end binary64

/-! ## Basic facts about one call of `OnUpdate` -/

theorem OnUpdate_of_lt (m : Libm α) (s : RobotControl α) (e : Tick α)
    (h : e.wallTime - s.prevUpdateTime < s.updateRate) : OnUpdate m s e = (s, none) := by
  simp [OnUpdate, h]

theorem OnUpdate_of_accepted (m : Libm α) (s : RobotControl α) (e : Tick α)
    (h : accepted s e) :
    OnUpdate m s e =
      ({ s with
          pose := ⟨s.pose.e0 + m.cosf s.pose.e2 * OnUpdate.ds s e,
            s.pose.e1 + m.sinf s.pose.e2 * OnUpdate.ds s e,
            s.pose.e2 + OnUpdate.dphi s e⟩
          vel := ⟨(m.cosf s.pose.e2 * OnUpdate.ds s e) / (e.wallTime - s.prevUpdateTime),
            (m.sinf s.pose.e2 * OnUpdate.ds s e) / (e.wallTime - s.prevUpdateTime),
            OnUpdate.dphi s e / (e.wallTime - s.prevUpdateTime)⟩
          posRightOld := e.posRight
          posLeftOld := e.posLeft
          prevUpdateTime := e.wallTime },
        some
          { stamp := e.now
            position_x := s.pose.e0 + m.cosf s.pose.e2 * OnUpdate.ds s e
            position_y := s.pose.e1 + m.sinf s.pose.e2 * OnUpdate.ds s e
            rpy_roll := 0
            rpy_pitch := 0
            rpy_yaw := s.pose.e2 + OnUpdate.dphi s e
            twist_linear_x :=
              (m.cosf s.pose.e2 * OnUpdate.ds s e) / (e.wallTime - s.prevUpdateTime)
            twist_linear_y :=
              (m.sinf s.pose.e2 * OnUpdate.ds s e) / (e.wallTime - s.prevUpdateTime)
            twist_angular_z := OnUpdate.dphi s e / (e.wallTime - s.prevUpdateTime) }) := by
  unfold accepted at h
  simp [OnUpdate, h]

theorem accepted_iff (s : RobotControl α) (e : Tick α) :
    accepted s e ↔ s.updateRate ≤ e.wallTime - s.prevUpdateTime := by
  simp [accepted]

theorem OnUpdate_config (m : Libm α) (s : RobotControl α) (e : Tick α) :
    (OnUpdate m s e).1.updateRate = s.updateRate ∧ (OnUpdate m s e).1.radius = s.radius ∧
      (OnUpdate m s e).1.axisDistance = s.axisDistance ∧
      (OnUpdate m s e).1.noiseOdom = s.noiseOdom ∧ (OnUpdate m s e).1.noiseVel = s.noiseVel := by
  by_cases h : e.wallTime - s.prevUpdateTime < s.updateRate
  · simp [OnUpdate_of_lt m s e h]
  · simp [OnUpdate_of_accepted m s e h]

theorem OnUpdate_prevUpdateTime (m : Libm α) (s : RobotControl α) (e : Tick α) :
    (OnUpdate m s e).1.prevUpdateTime = if accepted s e then e.wallTime else s.prevUpdateTime := by
  by_cases h : accepted s e
  · simp [OnUpdate_of_accepted m s e h, h]
  · have h' : e.wallTime - s.prevUpdateTime < s.updateRate := not_not.1 h
    simp [OnUpdate_of_lt m s e h', h]

theorem OnUpdate_published_length (m : Libm α) (s : RobotControl α) (e : Tick α) :
    (OnUpdate m s e).2.toList.length = if accepted s e then 1 else 0 := by
  by_cases h : accepted s e
  · simp [OnUpdate_of_accepted m s e h, h]
  · have h' : e.wallTime - s.prevUpdateTime < s.updateRate := not_not.1 h
    simp [OnUpdate_of_lt m s e h', h]

theorem runState_append (m : Libm α) (s : RobotControl α) (pre post : List (Tick α)) :
    runState m s (pre ++ post) = runState m (runState m s pre) post := by
  induction pre generalizing s with
  | nil => rfl
  | cons e es ih => simpa [runState] using ih (OnUpdate m s e).1

theorem runState_config (m : Libm α) (s : RobotControl α) (es : List (Tick α)) :
    (runState m s es).updateRate = s.updateRate ∧ (runState m s es).radius = s.radius ∧
      (runState m s es).axisDistance = s.axisDistance ∧
      (runState m s es).noiseOdom = s.noiseOdom := by
  induction es generalizing s with
  | nil => simp [runState]
  | cons e es ih =>
    obtain ⟨h1, h2, h3, h4, _⟩ := OnUpdate_config m s e
    simpa [runState, h1, h2, h3, h4] using ih (OnUpdate m s e).1

theorem AllAccepted_append (m : Libm α) (s : RobotControl α) (pre post : List (Tick α))
    (h : AllAccepted m s (pre ++ post)) :
    AllAccepted m s pre ∧ AllAccepted m (runState m s pre) post := by
  induction pre generalizing s with
  | nil => exact ⟨trivial, h⟩
  | cons e es ih =>
    obtain ⟨h1, h2⟩ := h
    obtain ⟨h3, h4⟩ := ih (OnUpdate m s e).1 h2
    exact ⟨⟨h1, h3⟩, h4⟩

theorem runPublished_length (m : Libm α) (s : RobotControl α) (es : List (Tick α)) :
    (runPublished m s es).length = (runAccepted m s es).length := by
  induction es generalizing s with
  | nil => rfl
  | cons e es ih =>
    simp only [runPublished, runAccepted, List.length_append, ih, OnUpdate_published_length]
    by_cases h : accepted s e <;> simp [h]

theorem runPrevUpdateTime_chain (m : Libm α) (s : RobotControl α) (es : List (Tick α))
    (hT : 0 ≤ s.updateRate) (p : α) (hp : p ≤ s.prevUpdateTime) :
    List.Chain (fun a b => a ≤ b) p (runPrevUpdateTime m s es) := by
  induction es generalizing s p with
  | nil => exact List.Chain.cons hp List.Chain.nil
  | cons e es ih =>
    refine List.Chain.cons hp (ih (OnUpdate m s e).1 ?_ _ ?_)
    · rw [(OnUpdate_config m s e).1]; exact hT
    · rw [OnUpdate_prevUpdateTime]
      by_cases h : accepted s e
      · have h' := (accepted_iff s e).1 h
        simp only [h, if_true]
        linarith
      · simp [h]

theorem runAccepted_chain (m : Libm α) (s : RobotControl α) (es : List (Tick α)) :
    List.Chain (fun a b => s.updateRate ≤ b - a) s.prevUpdateTime (runAccepted m s es) := by
  induction es generalizing s with
  | nil => exact List.Chain.nil
  | cons e es ih =>
    have ih' := ih (OnUpdate m s e).1
    rw [(OnUpdate_config m s e).1, OnUpdate_prevUpdateTime] at ih'
    by_cases h : accepted s e
    · simp only [h, if_true] at ih'
      simp only [runAccepted, h, if_true, List.singleton_append]
      exact List.Chain.cons ((accepted_iff s e).1 h) ih'
    · simp only [h, if_false] at ih'
      simpa [runAccepted, h] using ih'

theorem runState_prevUpdateTime_ge (m : Libm α) (s : RobotControl α) (es : List (Tick α))
    (hT : 0 ≤ s.updateRate) : s.prevUpdateTime ≤ (runState m s es).prevUpdateTime := by
  induction es generalizing s with
  | nil => exact le_refl _
  | cons e es ih =>
    have h1 := ih (OnUpdate m s e).1 (by rw [(OnUpdate_config m s e).1]; exact hT)
    refine le_trans ?_ h1
    rw [OnUpdate_prevUpdateTime]
    by_cases h : accepted s e
    · have h' := (accepted_iff s e).1 h
      simp only [h, if_true]
      linarith
    · simp [h]

theorem StraightLine_step (m : Libm α) (hc : m.cosf 0 = 1) (hsin : m.sinf 0 = 0)
    (s : RobotControl α) (e : Tick α)
    (hn : s.noiseOdom = 0) (hs : StraightLine s) (he : e.posLeft = e.posRight) :
    StraightLine (OnUpdate m s e).1 := by
  by_cases h : accepted s e
  · obtain ⟨h2, h1, h0, hw⟩ := hs
    have hlR : OnUpdate.l_R s e = s.radius * (e.posRight - s.posRightOld) := by
      simp [OnUpdate.l_R, normal_distribution, hn]
    have hlL : OnUpdate.l_L s e = s.radius * (e.posRight - s.posRightOld) := by
      simp [OnUpdate.l_L, normal_distribution, hn, he, hw]
    have hds : OnUpdate.ds s e = s.radius * (e.posRight - s.posRightOld) := by
      rw [OnUpdate.ds, hlR, hlL]; ring
    have hdphi : OnUpdate.dphi s e = 0 := by
      rw [OnUpdate.dphi, hlR, hlL, sub_self, zero_div]
    rw [OnUpdate_of_accepted m s e h, hds, hdphi]
    refine ⟨?_, ?_, ?_, ?_⟩
    · simp [h2]
    · simp only [h2, h1, hsin]; ring
    · simp only [h2, hc, h0]; ring
    · exact he
  · have h' : e.wallTime - s.prevUpdateTime < s.updateRate := not_not.1 h
    rw [OnUpdate_of_lt m s e h']; exact hs

theorem StraightLine_run (m : Libm α) (hc : m.cosf 0 = 1) (hsin : m.sinf 0 = 0)
    (s : RobotControl α) (es : List (Tick α))
    (hn : s.noiseOdom = 0) (hs : StraightLine s) (he : ∀ e ∈ es, e.posLeft = e.posRight) :
    StraightLine (runState m s es) := by
  induction es generalizing s with
  | nil => exact hs
  | cons e es ih =>
    refine ih (OnUpdate m s e).1 ?_ ?_ ?_
    · rw [(OnUpdate_config m s e).2.2.2.1]; exact hn
    · exact StraightLine_step m hc hsin s e hn hs (he e (List.mem_cons_self _ _))
    · exact fun e' h' => he e' (List.mem_cons_of_mem _ h')

theorem runState_last (m : Libm α) (s : RobotControl α) (es : List (Tick α)) (e : Tick α)
    (hacc : AllAccepted m s es) (hl : es.getLast? = some e) :
    (runState m s es).posRightOld = e.posRight ∧ (runState m s es).posLeftOld = e.posLeft := by
  induction es generalizing s with
  | nil => simp at hl
  | cons e' es ih =>
    obtain ⟨h1, h2⟩ := hacc
    cases es with
    | nil =>
      simp only [List.getLast?_singleton, Option.some.injEq] at hl
      subst hl
      simp [runState, OnUpdate_of_accepted m s e' h1]
    | cons e'' es =>
      rw [List.getLast?_cons_cons] at hl
      exact ih (OnUpdate m s e').1 h2 hl

theorem runState_heading_sum (m : Libm α) (s : RobotControl α) (es : List (Tick α)) :
    (runState m s es).pose.e2 = s.pose.e2 + (runDphi m s es).sum := by
  induction es generalizing s with
  | nil => simp [runState, runDphi]
  | cons e es ih =>
    rw [runState, ih, runDphi, List.sum_append]
    by_cases h : accepted s e
    · simp [OnUpdate_of_accepted m s e h, h, add_assoc]
    · have h' : e.wallTime - s.prevUpdateTime < s.updateRate := not_not.1 h
      simp [OnUpdate_of_lt m s e h', h]

theorem runState_heading_arcs (m : Libm α) (s : RobotControl α) (es : List (Tick α))
    (hn : s.noiseOdom = 0) :
    (runState m s es).pose.e2 =
      s.pose.e2 +
        (s.radius * ((runState m s es).posRightOld - s.posRightOld) -
          s.radius * ((runState m s es).posLeftOld - s.posLeftOld)) / (2 * s.axisDistance) := by
  induction es generalizing s with
  | nil => simp [runState]
  | cons e es ih =>
    obtain ⟨_, c2, c3, c4, _⟩ := OnUpdate_config m s e
    rw [runState, ih (OnUpdate m s e).1 (by rw [c4, hn]), c2, c3]
    by_cases h : accepted s e
    · simp only [OnUpdate_of_accepted m s e h, OnUpdate.dphi, OnUpdate.l_R, OnUpdate.l_L,
        normal_distribution, hn]
      ring
    · have h' : e.wallTime - s.prevUpdateTime < s.updateRate := not_not.1 h
      simp only [OnUpdate_of_lt m s e h']

/-- The straight-line scenario in exact arithmetic. -/
theorem straight_line_exact (m : Libm α) (hc : m.cosf 0 = 1) (hsin : m.sinf 0 = 0)
    (T nv t0 : α) (hT : 0 < T) (es : List (Tick α))
    (hacc : AllAccepted m (Load ⟨some (1 / 10), some (2 / 10), some T, some 0, some nv⟩ t0) es)
    (heq : ∀ e ∈ es, e.posLeft = e.posRight) :
    (∀ pre post, es = pre ++ post →
      (runState m (Load ⟨some (1 / 10), some (2 / 10), some T, some 0, some nv⟩ t0) pre).pose =
        ⟨1 / 10 *
          (runState m (Load ⟨some (1 / 10), some (2 / 10), some T, some 0, some nv⟩ t0)
            pre).posRightOld, 0, 0⟩) ∧
    (∀ e, es.getLast? = some e → e.posRight = 10 →
      (runState m (Load ⟨some (1 / 10), some (2 / 10), some T, some 0, some nv⟩ t0) es).pose =
        ⟨1, 0, 0⟩) ∧
    (∀ pre e post, es = pre ++ e :: post →
      e.posRight =
        (runState m (Load ⟨some (1 / 10), some (2 / 10), some T, some 0, some nv⟩ t0)
            pre).posRightOld +
          10 * (e.wallTime -
            (runState m (Load ⟨some (1 / 10), some (2 / 10), some T, some 0, some nv⟩ t0)
              pre).prevUpdateTime) →
      ∃ msg,
        (OnUpdate m
          (runState m (Load ⟨some (1 / 10), some (2 / 10), some T, some 0, some nv⟩ t0) pre)
          e).2 = some msg ∧
        msg.twist_linear_x = 1 ∧ msg.twist_linear_y = 0 ∧ msg.twist_angular_z = 0) := by
  generalize hs0 : (Load ⟨some (1 / 10), some (2 / 10), some T, some 0, some nv⟩ t0 :
    RobotControl α) = s0 at hacc ⊢
  have hr0 : s0.radius = 1 / 10 := by rw [← hs0]; rfl
  have hn0 : s0.noiseOdom = 0 := by rw [← hs0]; rfl
  have hT0 : s0.updateRate = T := by rw [← hs0]; rfl
  have hL0 : StraightLine s0 := by rw [← hs0]; simp [StraightLine, Load]
  have hinv : ∀ pre post, es = pre ++ post →
      StraightLine (runState m s0 pre) ∧ (runState m s0 pre).radius = 1 / 10 ∧
        (runState m s0 pre).noiseOdom = 0 ∧ (runState m s0 pre).updateRate = T := by
    intro pre post hes
    obtain ⟨c1, c2, _, c4⟩ := runState_config m s0 pre
    refine ⟨StraightLine_run m hc hsin s0 pre hn0 hL0 ?_, by rw [c2, hr0], by rw [c4, hn0],
      by rw [c1, hT0]⟩
    intro e he
    exact heq e (by rw [hes]; exact List.mem_append_left _ he)
  have hpose : ∀ pre post, es = pre ++ post →
      (runState m s0 pre).pose = ⟨1 / 10 * (runState m s0 pre).posRightOld, 0, 0⟩ := by
    intro pre post hes
    obtain ⟨⟨h2, h1, h0, _⟩, hr, _, _⟩ := hinv pre post hes
    rw [hr] at h0
    rcases hq : (runState m s0 pre).pose with ⟨a, b, c⟩
    rw [hq] at h0 h1 h2
    simp only at h0 h1 h2
    rw [h0, h1, h2]
  refine ⟨hpose, ?_, ?_⟩
  · intro e hl h10
    rw [hpose es [] (by simp), (runState_last m s0 es e hacc hl).1, h10]
    norm_num
  · intro pre e post hes hadv
    obtain ⟨⟨h2, _, _, hw⟩, hr, hn, hU⟩ := hinv pre (e :: post) hes
    have hacc' : accepted (runState m s0 pre) e := by
      rw [hes] at hacc
      exact (AllAccepted_append m s0 pre (e :: post) hacc).2.1
    have hle := (accepted_iff _ e).1 hacc'
    rw [hU] at hle
    have hdt : e.wallTime - (runState m s0 pre).prevUpdateTime ≠ 0 :=
      ne_of_gt (lt_of_lt_of_le hT hle)
    have hR : e.posRight - (runState m s0 pre).posRightOld =
        10 * (e.wallTime - (runState m s0 pre).prevUpdateTime) := by
      rw [hadv]; ring
    have hL : e.posLeft - (runState m s0 pre).posLeftOld =
        10 * (e.wallTime - (runState m s0 pre).prevUpdateTime) := by
      rw [heq e (by rw [hes]; simp), hw, hadv]; ring
    have hlR : OnUpdate.l_R (runState m s0 pre) e =
        e.wallTime - (runState m s0 pre).prevUpdateTime := by
      simp only [OnUpdate.l_R, normal_distribution, hr, hn, hR]; ring
    have hlL : OnUpdate.l_L (runState m s0 pre) e =
        e.wallTime - (runState m s0 pre).prevUpdateTime := by
      simp only [OnUpdate.l_L, normal_distribution, hr, hn, hL]; ring
    have hds : OnUpdate.ds (runState m s0 pre) e =
        e.wallTime - (runState m s0 pre).prevUpdateTime := by
      rw [OnUpdate.ds, hlR, hlL]; ring
    have hdphi : OnUpdate.dphi (runState m s0 pre) e = 0 := by
      rw [OnUpdate.dphi, hlR, hlL, sub_self, zero_div]
    rw [OnUpdate_of_accepted m _ e hacc', hds, hdphi, h2, hc, hsin]
    refine ⟨_, rfl, ?_, ?_, ?_⟩
    · simp only [one_mul]; exact div_self hdt
    · simp
    · simp

/-! ## Basic facts about the code in double arithmetic -/

namespace binary64

theorem round64_zero : round64 0 = 0 := by
  simp [round64]

theorem OnUpdate_of_lt_double (m : Libm ℚ) (s : RobotControl ℚ) (e : Tick ℚ)
    (h : fsub e.wallTime s.prevUpdateTime < s.updateRate) : OnUpdate m s e = (s, none) := by
  simp [OnUpdate, h]

theorem OnUpdate_noiseOdom (m : Libm ℚ) (s : RobotControl ℚ) (e : Tick ℚ) :
    (OnUpdate m s e).1.noiseOdom = s.noiseOdom ∧ (OnUpdate m s e).1.updateRate = s.updateRate := by
  by_cases h : fsub e.wallTime s.prevUpdateTime < s.updateRate
  · simp [OnUpdate_of_lt_double m s e h]
  · simp [OnUpdate, h]

theorem draw_of_noise_zero (z : ℚ) : normal_distribution 0 0 z = 0 := by
  simp [normal_distribution, fadd, fmul, round64_zero]

theorem dphi_of_equal_wheels (s : RobotControl ℚ) (e : Tick ℚ) (hn : s.noiseOdom = 0)
    (hw : s.posLeftOld = s.posRightOld) (he : e.posLeft = e.posRight) :
    OnUpdate.dphi s e = 0 := by
  have h : OnUpdate.l_L s e = OnUpdate.l_R s e := by
    simp [OnUpdate.l_L, OnUpdate.l_R, hn, hw, he, draw_of_noise_zero]
  simp [OnUpdate.dphi, h, fsub, fdiv, round64_zero]

theorem StraightLine_step_double (m : Libm ℚ) (hsin : m.sinf 0 = 0) (s : RobotControl ℚ)
    (e : Tick ℚ)
    (hn : s.noiseOdom = 0) (hs : StraightLine s) (he : e.posLeft = e.posRight) :
    StraightLine (OnUpdate m s e).1 := by
  by_cases h : fsub e.wallTime s.prevUpdateTime < s.updateRate
  · rw [OnUpdate_of_lt_double m s e h]; exact hs
  · obtain ⟨h2, h1, hw⟩ := hs
    have hd := dphi_of_equal_wheels s e hn hw he
    simp [OnUpdate, h, StraightLine, h2, h1, hd, hsin, he, fadd, fmul, round64_zero]

theorem StraightLine_run_double (m : Libm ℚ) (hsin : m.sinf 0 = 0) (s : RobotControl ℚ)
    (es : List (Tick ℚ)) (hn : s.noiseOdom = 0) (hs : StraightLine s)
    (he : ∀ e ∈ es, e.posLeft = e.posRight) : StraightLine (runState m s es) := by
  induction es generalizing s with
  | nil => exact hs
  | cons e es ih =>
    refine ih (OnUpdate m s e).1 ?_ ?_ ?_
    · rw [(OnUpdate_noiseOdom m s e).1]; exact hn
    · exact StraightLine_step_double m hsin s e hn hs (he e (List.mem_cons_self _ _))
    · exact fun e' h' => he e' (List.mem_cons_of_mem _ h')

theorem OnUpdate_congr (m : Libm ℚ) (hc : m.cosf 0 = 1) (hsin : m.sinf 0 = 0)
    (s : RobotControl ℚ) (e : Tick ℚ) (h2 : s.pose.e2 = 0) :
    OnUpdate m s e = OnUpdate libmAtZero s e := by
  simp [OnUpdate, h2, hc, hsin, libmAtZero]

theorem run_congr (m : Libm ℚ) (hc : m.cosf 0 = 1) (hsin : m.sinf 0 = 0)
    (s : RobotControl ℚ) (es : List (Tick ℚ)) (hn : s.noiseOdom = 0) (hs : StraightLine s)
    (he : ∀ e ∈ es, e.posLeft = e.posRight) :
    runState m s es = runState libmAtZero s es ∧
      (AllAccepted m s es ↔ AllAccepted libmAtZero s es) := by
  induction es generalizing s with
  | nil => exact ⟨rfl, Iff.rfl⟩
  | cons e es ih =>
    have hstep := OnUpdate_congr m hc hsin s e hs.1
    have ih' := ih (OnUpdate m s e).1 (by rw [(OnUpdate_noiseOdom m s e).1]; exact hn)
      (StraightLine_step_double m hsin s e hn hs (he e (List.mem_cons_self _ _)))
      (fun e' h' => he e' (List.mem_cons_of_mem _ h'))
    rw [hstep] at ih'
    simp only [runState, AllAccepted, hstep]
    exact ⟨ih'.1, and_congr Iff.rfl ih'.2⟩

theorem runState_append_double (m : Libm ℚ) (s : RobotControl ℚ) (pre post : List (Tick ℚ)) :
    runState m s (pre ++ post) = runState m (runState m s pre) post := by
  induction pre generalizing s with
  | nil => rfl
  | cons e es ih => simpa [runState] using ih (OnUpdate m s e).1

theorem runState_config_double (m : Libm ℚ) (s : RobotControl ℚ) (es : List (Tick ℚ)) :
    (runState m s es).noiseOdom = s.noiseOdom ∧ (runState m s es).updateRate = s.updateRate := by
  induction es generalizing s with
  | nil => simp [runState]
  | cons e es ih =>
    obtain ⟨h1, h2⟩ := OnUpdate_noiseOdom m s e
    simpa [runState, h1, h2] using ih (OnUpdate m s e).1

theorem AllAccepted_append_double (m : Libm ℚ) (s : RobotControl ℚ) (pre post : List (Tick ℚ))
    (h : AllAccepted m s (pre ++ post)) :
    AllAccepted m s pre ∧ AllAccepted m (runState m s pre) post := by
  induction pre generalizing s with
  | nil => exact ⟨trivial, h⟩
  | cons e es ih =>
    obtain ⟨h1, h2⟩ := h
    obtain ⟨h3, h4⟩ := ih (OnUpdate m s e).1 h2
    exact ⟨⟨h1, h3⟩, h4⟩

theorem twist_of_equal_wheels (m : Libm ℚ) (hsin : m.sinf 0 = 0) (s : RobotControl ℚ)
    (e : Tick ℚ) (hn : s.noiseOdom = 0) (hs : StraightLine s) (he : e.posLeft = e.posRight)
    (hT : 0 < s.updateRate) (ha : accepted s e) :
    ∃ msg, (OnUpdate m s e).2 = some msg ∧ msg.twist_linear_y = 0 ∧
      msg.twist_angular_z = 0 := by
  obtain ⟨h2, _, hw⟩ := hs
  have hd := dphi_of_equal_wheels s e hn hw he
  have hdt : fsub e.wallTime s.prevUpdateTime ≠ 0 :=
    ne_of_gt (lt_of_lt_of_le hT (not_lt.1 ha))
  have hz : (0 : ℚ) / fsub e.wallTime s.prevUpdateTime = 0 := (div_eq_iff hdt).2 (by simp)
  have ha' : ¬ (fsub e.wallTime s.prevUpdateTime < s.updateRate) := ha
  simp only [OnUpdate, ha', if_false]
  refine ⟨_, rfl, ?_, ?_⟩
  · simp only [h2, hsin, fdiv, fmul, zero_mul, round64_zero, hz]
  · simp only [hd, fdiv, hz, round64_zero]

end binary64

/-! ## The claims -/

/-- C3: a call of `OnUpdate` whose elapsed time `t - prevUpdateTime` is below `updateRate`
returns the plugin state unchanged (so `pose`, `vel`, `posLeftOld`, `posRightOld` and
`prevUpdateTime` keep their values) and publishes no odometry message. -/
theorem skipped_tick_noop (m : Libm α) (s : RobotControl α) (e : Tick α)
    (h : e.wallTime - s.prevUpdateTime < s.updateRate) :
    (OnUpdate m s e).1 = s ∧ (OnUpdate m s e).2 = none ∧
      (OnUpdate m s e).1.pose = s.pose ∧ (OnUpdate m s e).1.vel = s.vel ∧
      (OnUpdate m s e).1.posLeftOld = s.posLeftOld ∧
      (OnUpdate m s e).1.posRightOld = s.posRightOld ∧
      (OnUpdate m s e).1.prevUpdateTime = s.prevUpdateTime ∧
      runPublished m s [e] = [] := by
  simp [runPublished, OnUpdate_of_lt m s e h]

theorem skipped_tick_noop_witness :
    ((3 : ℝ) / 100 - 0 < 5 / 100) ∧
      (OnUpdate (⟨Real.cos, Real.sin⟩ : Libm ℝ)
          { (Load ⟨none, none, none, none, none⟩ 0 : RobotControl ℝ) with
            pose := ⟨1, 2, 3⟩, posLeftOld := 4, posRightOld := 5 }
          ⟨3 / 100, 7, 8, 1, -1, 9⟩).1 =
        { (Load ⟨none, none, none, none, none⟩ 0 : RobotControl ℝ) with
          pose := ⟨1, 2, 3⟩, posLeftOld := 4, posRightOld := 5 } :=
  ⟨by norm_num,
    (skipped_tick_noop (⟨Real.cos, Real.sin⟩ : Libm ℝ)
      { (Load ⟨none, none, none, none, none⟩ 0 : RobotControl ℝ) with
        pose := ⟨1, 2, 3⟩, posLeftOld := 4, posRightOld := 5 }
      ⟨3 / 100, 7, 8, 1, -1, 9⟩ (by norm_num [Load])).1⟩

/-- C5: for every twist, `ROSCallback` writes `(v + b*w)/r * (1 + eR)` to the right joint
and `(v - b*w)/r * (1 + eL)` to the left joint, where `v = linear.x`, `w = angular.z` and
`eR`, `eL` are the two draws of the velocity noise; no other field of the twist is read; with
`noiseVel = 0` the setpoints are `(v + b*w)/r` and `(v - b*w)/r`; and for `v = 0`, `w = 1`,
`r = 0.1`, `b = 0.2` they are `2` and `-2`. -/
theorem ROSCallback_forward_kinematics :
    (∀ (s : RobotControl α) (msg : Twist α) (zR zL : α),
        (ROSCallback s msg zR zL).right =
            (msg.linear_x + s.axisDistance * msg.angular_z) / s.radius *
              (1 + normal_distribution 0 s.noiseVel zR) ∧
          (ROSCallback s msg zR zL).left =
            (msg.linear_x - s.axisDistance * msg.angular_z) / s.radius *
              (1 + normal_distribution 0 s.noiseVel zL)) ∧
      (∀ (s : RobotControl α) (msg msg' : Twist α) (zR zL : α),
        msg.linear_x = msg'.linear_x → msg.angular_z = msg'.angular_z →
          ROSCallback s msg zR zL = ROSCallback s msg' zR zL) ∧
      (∀ (s : RobotControl α) (msg : Twist α) (zR zL : α), s.noiseVel = 0 →
        (ROSCallback s msg zR zL).right =
            (msg.linear_x + s.axisDistance * msg.angular_z) / s.radius ∧
          (ROSCallback s msg zR zL).left =
            (msg.linear_x - s.axisDistance * msg.angular_z) / s.radius) ∧
      (∀ (s : RobotControl α) (msg : Twist α) (zR zL : α), s.noiseVel = 0 →
        s.radius = 1 / 10 → s.axisDistance = 2 / 10 → msg.linear_x = 0 → msg.angular_z = 1 →
          (ROSCallback s msg zR zL).right = 2 ∧ (ROSCallback s msg zR zL).left = -2) := by
  refine ⟨fun s msg zR zL => ⟨rfl, rfl⟩, ?_, ?_, ?_⟩
  · intro s msg msg' zR zL hx hz
    simp [ROSCallback, hx, hz]
  · intro s msg zR zL h0
    simp [ROSCallback, normal_distribution, h0]
  · intro s msg zR zL h0 hr hb hv hw
    simp only [ROSCallback, normal_distribution, h0, hr, hb, hv, hw]
    constructor <;> norm_num

/-- C2: on a call of `OnUpdate` with `dt = t - prevUpdateTime ≥ updateRate`, with `eR`, `eL`
the two draws of the odometry noise, the arcs are `l_R = r*(phiR - posRightOld)*(1+eR)` and
`l_L = r*(phiL - posLeftOld)*(1+eL)`, `ds = (l_R + l_L)/2`, `dphi = (l_R - l_L)/(2*b)`, and
the call leaves `x + cos(theta)*ds`, `y + sin(theta)*ds`, `theta + dphi` in `pose` and
`cos(theta)*ds/dt`, `sin(theta)*ds/dt`, `dphi/dt` in `vel`, every `cos`/`sin` taken at the
old `theta`; it stores `phiL`, `phiR` as `posLeftOld`, `posRightOld`, sets `prevUpdateTime` to
`t`, and publishes exactly these values.  In particular, from pose `(0,0,0)` with `r = 0.1`,
`b = 0.2`, no noise, arcs `+0.2` and `-0.2` (wheel angles `2` and `-2`) and `dt = 0.1`:
`ds = 0`, `dphi = 1`, pose `(0,0,1)` and velocity `(0,0,10)`. -/
theorem OnUpdate_accepted_step (m : Libm α) (s : RobotControl α) (e : Tick α)
    (h : s.updateRate ≤ e.wallTime - s.prevUpdateTime) :
    (OnUpdate.l_R s e =
        s.radius * (e.posRight - s.posRightOld) * (1 + normal_distribution 0 s.noiseOdom e.zR) ∧
      OnUpdate.l_L s e =
        s.radius * (e.posLeft - s.posLeftOld) * (1 + normal_distribution 0 s.noiseOdom e.zL) ∧
      OnUpdate.ds s e = (OnUpdate.l_R s e + OnUpdate.l_L s e) / 2 ∧
      OnUpdate.dphi s e = (OnUpdate.l_R s e - OnUpdate.l_L s e) / (2 * s.axisDistance)) ∧
    ((OnUpdate m s e).1.pose =
        ⟨s.pose.e0 + m.cosf s.pose.e2 * OnUpdate.ds s e,
          s.pose.e1 + m.sinf s.pose.e2 * OnUpdate.ds s e,
          s.pose.e2 + OnUpdate.dphi s e⟩ ∧
      (OnUpdate m s e).1.vel =
        ⟨m.cosf s.pose.e2 * OnUpdate.ds s e / (e.wallTime - s.prevUpdateTime),
          m.sinf s.pose.e2 * OnUpdate.ds s e / (e.wallTime - s.prevUpdateTime),
          OnUpdate.dphi s e / (e.wallTime - s.prevUpdateTime)⟩ ∧
      (OnUpdate m s e).1.posLeftOld = e.posLeft ∧
      (OnUpdate m s e).1.posRightOld = e.posRight ∧
      (OnUpdate m s e).1.prevUpdateTime = e.wallTime ∧
      (OnUpdate m s e).2 =
        some
          { stamp := e.now
            position_x := (OnUpdate m s e).1.pose.e0
            position_y := (OnUpdate m s e).1.pose.e1
            rpy_roll := 0
            rpy_pitch := 0
            rpy_yaw := (OnUpdate m s e).1.pose.e2
            twist_linear_x := (OnUpdate m s e).1.vel.e0
            twist_linear_y := (OnUpdate m s e).1.vel.e1
            twist_angular_z := (OnUpdate m s e).1.vel.e2 }) ∧
    (s.pose = ⟨0, 0, 0⟩ → s.radius = 1 / 10 → s.axisDistance = 2 / 10 → s.noiseOdom = 0 →
      e.posRight - s.posRightOld = 2 → e.posLeft - s.posLeftOld = -2 →
      e.wallTime - s.prevUpdateTime = 1 / 10 →
        OnUpdate.l_R s e = 2 / 10 ∧ OnUpdate.l_L s e = -(2 / 10) ∧
          OnUpdate.ds s e = 0 ∧ OnUpdate.dphi s e = 1 ∧
          (OnUpdate m s e).1.pose = ⟨0, 0, 1⟩ ∧ (OnUpdate m s e).1.vel = ⟨0, 0, 10⟩) := by
  have ha : accepted s e := (accepted_iff s e).2 h
  rw [OnUpdate_of_accepted m s e ha]
  refine ⟨⟨rfl, rfl, rfl, rfl⟩, ⟨rfl, rfl, rfl, rfl, rfl, rfl⟩, ?_⟩
  intro hp hr hb hn hR hL hdt
  have hlR : OnUpdate.l_R s e = 2 / 10 := by
    simp only [OnUpdate.l_R, normal_distribution, hr, hn, hR]; norm_num
  have hlL : OnUpdate.l_L s e = -(2 / 10) := by
    simp only [OnUpdate.l_L, normal_distribution, hr, hn, hL]; norm_num
  have hds : OnUpdate.ds s e = 0 := by
    simp only [OnUpdate.ds, hlR, hlL]; norm_num
  have hdphi : OnUpdate.dphi s e = 1 := by
    simp only [OnUpdate.dphi, hlR, hlL, hb]; norm_num
  refine ⟨hlR, hlL, hds, hdphi, ?_, ?_⟩
  · simp only [hds, hdphi, hp]; norm_num
  · simp only [hds, hdphi, hdt]; norm_num

theorem OnUpdate_accepted_step_witness :
    ((1 : ℝ) / 10 ≤ 1 / 10 - 0) ∧
      (OnUpdate (⟨Real.cos, Real.sin⟩ : Libm ℝ)
          (Load ⟨some (1 / 10), some (2 / 10), some (1 / 10), some 0, some 0⟩ 0)
          ⟨1 / 10, -2, 2, 0, 0, 0⟩).1.pose = ⟨0, 0, 1⟩ ∧
      (OnUpdate (⟨Real.cos, Real.sin⟩ : Libm ℝ)
          (Load ⟨some (1 / 10), some (2 / 10), some (1 / 10), some 0, some 0⟩ 0)
          ⟨1 / 10, -2, 2, 0, 0, 0⟩).1.vel = ⟨0, 0, 10⟩ :=
  have h := OnUpdate_accepted_step (⟨Real.cos, Real.sin⟩ : Libm ℝ)
    (Load ⟨some (1 / 10), some (2 / 10), some (1 / 10), some 0, some 0⟩ 0)
    ⟨1 / 10, -2, 2, 0, 0, 0⟩ (by norm_num [Load])
  have h' := h.2.2 rfl rfl rfl rfl (by norm_num [Load]) (by norm_num [Load])
    (by norm_num [Load])
  ⟨by norm_num, h'.2.2.2.2.1, h'.2.2.2.2.2⟩

/-- C1: with `r ≠ 0`, `b ≠ 0` and both noise levels zero, if the wheel speeds are the
setpoints `ROSCallback` writes for the twist `(v, w)` and the wheel angles read by `OnUpdate`
have advanced by `w_R*dt` and `w_L*dt`, then `OnUpdate` computes `ds = v*dt` and
`dphi = w*dt` (and, the call being let through, the new heading is `theta + w*dt` and the
position has moved by `v*dt` along the old heading). -/
theorem roundtrip_kinematics (m : Libm α) (s : RobotControl α) (msg : Twist α)
    (zR zL dt : α) (e : Tick α)
    (hr : s.radius ≠ 0) (hb : s.axisDistance ≠ 0)
    (hnv : s.noiseVel = 0) (hno : s.noiseOdom = 0)
    (hR : e.posRight - s.posRightOld = (ROSCallback s msg zR zL).right * dt)
    (hL : e.posLeft - s.posLeftOld = (ROSCallback s msg zR zL).left * dt) :
    ((ROSCallback s msg zR zL).right = (msg.linear_x + s.axisDistance * msg.angular_z) / s.radius ∧
      (ROSCallback s msg zR zL).left = (msg.linear_x - s.axisDistance * msg.angular_z) / s.radius) ∧
    OnUpdate.ds s e = msg.linear_x * dt ∧ OnUpdate.dphi s e = msg.angular_z * dt ∧
    (accepted s e →
      (OnUpdate m s e).1.pose =
        ⟨s.pose.e0 + m.cosf s.pose.e2 * (msg.linear_x * dt),
          s.pose.e1 + m.sinf s.pose.e2 * (msg.linear_x * dt),
          s.pose.e2 + msg.angular_z * dt⟩) := by
  have hvR : (ROSCallback s msg zR zL).right =
      (msg.linear_x + s.axisDistance * msg.angular_z) / s.radius := by
    simp [ROSCallback, normal_distribution, hnv]
  have hvL : (ROSCallback s msg zR zL).left =
      (msg.linear_x - s.axisDistance * msg.angular_z) / s.radius := by
    simp [ROSCallback, normal_distribution, hnv]
  have hlR : OnUpdate.l_R s e = (msg.linear_x + s.axisDistance * msg.angular_z) * dt := by
    simp only [OnUpdate.l_R, normal_distribution, hno, hR, hvR]
    field_simp
  have hlL : OnUpdate.l_L s e = (msg.linear_x - s.axisDistance * msg.angular_z) * dt := by
    simp only [OnUpdate.l_L, normal_distribution, hno, hL, hvL]
    field_simp
  have hds : OnUpdate.ds s e = msg.linear_x * dt := by
    simp only [OnUpdate.ds, hlR, hlL]; ring
  have hdphi : OnUpdate.dphi s e = msg.angular_z * dt := by
    simp only [OnUpdate.dphi, hlR, hlL]; field_simp; ring
  refine ⟨⟨hvR, hvL⟩, hds, hdphi, fun ha => ?_⟩
  rw [OnUpdate_of_accepted m s e ha, hds, hdphi]

theorem roundtrip_kinematics_witness :
    ((OnUpdate (⟨Real.cos, Real.sin⟩ : Libm ℝ)
        (Load ⟨some (1 / 10), some (2 / 10), some (1 / 10), some 0, some 0⟩ 0)
        ⟨1 / 10, 1, 3, 0, 0, 0⟩).1.pose : Array3 ℝ) =
      ⟨0 + Real.cos 0 * (2 * (1 / 10)), 0 + Real.sin 0 * (2 * (1 / 10)), 0 + 5 * (1 / 10)⟩ :=
  (roundtrip_kinematics (⟨Real.cos, Real.sin⟩ : Libm ℝ)
    (Load ⟨some (1 / 10), some (2 / 10), some (1 / 10), some 0, some 0⟩ 0)
    ⟨2, 0, 0, 0, 0, 5⟩ 0 0 (1 / 10) ⟨1 / 10, 1, 3, 0, 0, 0⟩
    (by norm_num [Load]) (by norm_num [Load]) rfl rfl
    (by norm_num [Load, ROSCallback, normal_distribution])
    (by norm_num [Load, ROSCallback, normal_distribution])).2.2.2
    (by norm_num [accepted, Load])

/-- C9: on a call of `OnUpdate` that is let through, with `b ≠ 0` and `dt > 0`, for every
`noiseOdom` and every pair of noise draws: if both sampled wheel angles equal the stored
`posLeftOld` and `posRightOld`, then `ds = 0` and `dphi = 0`, the pose is unchanged, and the
stored and published twist is `(0, 0, 0)` whatever `theta` is. -/
theorem stationary_under_noise (m : Libm α) (s : RobotControl α) (e : Tick α)
    (hb : s.axisDistance ≠ 0) (hdt : 0 < e.wallTime - s.prevUpdateTime)
    (ha : accepted s e)
    (hL : e.posLeft = s.posLeftOld) (hR : e.posRight = s.posRightOld) :
    OnUpdate.ds s e = 0 ∧ OnUpdate.dphi s e = 0 ∧
      (OnUpdate m s e).1.pose = s.pose ∧ (OnUpdate m s e).1.vel = ⟨0, 0, 0⟩ ∧
      (∃ msg, (OnUpdate m s e).2 = some msg ∧
        msg.position_x = s.pose.e0 ∧ msg.position_y = s.pose.e1 ∧ msg.rpy_yaw = s.pose.e2 ∧
        msg.twist_linear_x = 0 ∧ msg.twist_linear_y = 0 ∧ msg.twist_angular_z = 0) := by
  have hlR : OnUpdate.l_R s e = 0 := by simp [OnUpdate.l_R, hR]
  have hlL : OnUpdate.l_L s e = 0 := by simp [OnUpdate.l_L, hL]
  have hds : OnUpdate.ds s e = 0 := by simp [OnUpdate.ds, hlR, hlL]
  have h2b : 2 * s.axisDistance ≠ 0 := mul_ne_zero two_ne_zero hb
  have hdphi : OnUpdate.dphi s e = 0 := by
    rw [OnUpdate.dphi, hlR, hlL, sub_zero]
    exact div_eq_zero_iff.2 (Or.inl rfl)
  have hz : ∀ c : α, c * 0 / (e.wallTime - s.prevUpdateTime) = 0 := fun c =>
    (div_eq_iff (ne_of_gt hdt)).2 (by simp)
  have hz' : (0 : α) / (e.wallTime - s.prevUpdateTime) = 0 :=
    (div_eq_iff (ne_of_gt hdt)).2 (by simp)
  rw [OnUpdate_of_accepted m s e ha, hds, hdphi]
  refine ⟨rfl, rfl, ?_, ?_, ?_⟩
  · simp
  · simp only [hz, hz']
  · exact ⟨_, rfl, by simp, by simp, by simp, hz _, hz _, hz'⟩

theorem stationary_under_noise_witness :
    ((OnUpdate (⟨Real.cos, Real.sin⟩ : Libm ℝ)
        { (Load ⟨some (1 / 10), some (2 / 10), some (1 / 10), some (1 / 2), some 0⟩ 0 :
            RobotControl ℝ) with pose := ⟨1, 2, 3⟩, posLeftOld := 4, posRightOld := 5 }
        ⟨1 / 10, 4, 5, 2, -7, 0⟩).1.vel : Array3 ℝ) = ⟨0, 0, 0⟩ :=
  (stationary_under_noise (⟨Real.cos, Real.sin⟩ : Libm ℝ)
    { (Load ⟨some (1 / 10), some (2 / 10), some (1 / 10), some (1 / 2), some 0⟩ 0 :
        RobotControl ℝ) with pose := ⟨1, 2, 3⟩, posLeftOld := 4, posRightOld := 5 }
    ⟨1 / 10, 4, 5, 2, -7, 0⟩
    (by norm_num [Load]) (by norm_num [Load])
    (by norm_num [accepted, Load]) rfl rfl).2.2.2.1

/-- C10, as amended: for `r > 0` and noise draws `eR`, `eL` with `1 + eR > 0` and
`1 + eL > 0` (always so when `noiseOdom = 0`), the perturbation `l * (1 + e)` keeps the sign
of each wheel arc, and when both wheel-angle deltas are negative `ds` is negative. -/
theorem perturbed_arc_sign (s : RobotControl α) (e : Tick α) (hr : 0 < s.radius)
    (heR : 0 < 1 + normal_distribution 0 s.noiseOdom e.zR)
    (heL : 0 < 1 + normal_distribution 0 s.noiseOdom e.zL) :
    SignType.sign (OnUpdate.l_R s e) = SignType.sign (s.radius * (e.posRight - s.posRightOld)) ∧
      SignType.sign (OnUpdate.l_L s e) = SignType.sign (s.radius * (e.posLeft - s.posLeftOld)) ∧
      (e.posRight - s.posRightOld < 0 → e.posLeft - s.posLeftOld < 0 → OnUpdate.ds s e < 0) := by
  refine ⟨?_, ?_, ?_⟩
  · simp only [OnUpdate.l_R]
    rw [sign_mul, sign_pos heR, mul_one]
  · simp only [OnUpdate.l_L]
    rw [sign_mul, sign_pos heL, mul_one]
  · intro hR hL
    have h1 : OnUpdate.l_R s e < 0 :=
      mul_neg_of_neg_of_pos (mul_neg_of_pos_of_neg hr hR) heR
    have h2 : OnUpdate.l_L s e < 0 :=
      mul_neg_of_neg_of_pos (mul_neg_of_pos_of_neg hr hL) heL
    have h3 : OnUpdate.l_R s e + OnUpdate.l_L s e < 0 := add_neg h1 h2
    exact div_neg_of_neg_of_pos h3 two_pos

theorem perturbed_arc_sign_witness :
    OnUpdate.ds
        (Load ⟨some (1 / 10), some (2 / 10), some (1 / 10), some (1 / 2), some 0⟩ 0 :
          RobotControl ℝ)
        ⟨1 / 10, -1, -2, 1, -1, 0⟩ < 0 :=
  (perturbed_arc_sign
    (Load ⟨some (1 / 10), some (2 / 10), some (1 / 10), some (1 / 2), some 0⟩ 0 :
      RobotControl ℝ)
    ⟨1 / 10, -1, -2, 1, -1, 0⟩
    (by norm_num [Load]) (by norm_num [Load, normal_distribution])
    (by norm_num [Load, normal_distribution])).2.2
    (by norm_num [Load]) (by norm_num [Load])

/-- C10 as stated fails: with `r = 1`, `noiseOdom = 1/2` and both standard variates `-3`
(draws `e = -3/2`), both wheel-angle deltas are `-1`, the call is let through, and yet the
perturbed arcs and `ds` are positive. -/
theorem perturbed_arc_sign_counterexample :
    (0 : ℝ) < (Load ⟨some 1, some (2 / 10), some (1 / 10), some (1 / 2), some 0⟩ 0 :
        RobotControl ℝ).radius ∧
      ((⟨1 / 10, -1, -1, -3, -3, 0⟩ : Tick ℝ).posRight -
        (Load ⟨some 1, some (2 / 10), some (1 / 10), some (1 / 2), some 0⟩ 0 :
          RobotControl ℝ).posRightOld < 0) ∧
      ((⟨1 / 10, -1, -1, -3, -3, 0⟩ : Tick ℝ).posLeft -
        (Load ⟨some 1, some (2 / 10), some (1 / 10), some (1 / 2), some 0⟩ 0 :
          RobotControl ℝ).posLeftOld < 0) ∧
      accepted (Load ⟨some 1, some (2 / 10), some (1 / 10), some (1 / 2), some 0⟩ 0 :
        RobotControl ℝ) ⟨1 / 10, -1, -1, -3, -3, 0⟩ ∧
      OnUpdate.l_R (Load ⟨some 1, some (2 / 10), some (1 / 10), some (1 / 2), some 0⟩ 0 :
        RobotControl ℝ) ⟨1 / 10, -1, -1, -3, -3, 0⟩ = 1 / 2 ∧
      OnUpdate.ds (Load ⟨some 1, some (2 / 10), some (1 / 10), some (1 / 2), some 0⟩ 0 :
        RobotControl ℝ) ⟨1 / 10, -1, -1, -3, -3, 0⟩ = 1 / 2 ∧
      ¬ (OnUpdate.ds (Load ⟨some 1, some (2 / 10), some (1 / 10), some (1 / 2), some 0⟩ 0 :
        RobotControl ℝ) ⟨1 / 10, -1, -1, -3, -3, 0⟩ < 0) := by
  norm_num [Load, accepted, OnUpdate.ds, OnUpdate.l_R, OnUpdate.l_L, normal_distribution]

/-- C6: for `updateRate = T ≥ 0` and any sequence of wall-clock readings (monotonic or not):
a call that is let through has `dt = t - prevUpdateTime ≥ T` and sets `prevUpdateTime` to
`t`; a call that is not leaves `prevUpdateTime` unchanged; starting from the initial
`prevUpdateTime`, consecutive accepted readings are at least `T` apart; and the values
`prevUpdateTime` takes over the run never decrease. -/
theorem tick_spacing_monotone (m : Libm α) (s : RobotControl α) (es : List (Tick α))
    (hT : 0 ≤ s.updateRate) :
    (∀ pre e post, es = pre ++ e :: post →
      (accepted (runState m s pre) e →
        s.updateRate ≤ e.wallTime - (runState m s pre).prevUpdateTime ∧
          (runState m s (pre ++ [e])).prevUpdateTime = e.wallTime) ∧
      (¬ accepted (runState m s pre) e →
        (runState m s (pre ++ [e])).prevUpdateTime = (runState m s pre).prevUpdateTime) ∧
      (runState m s pre).prevUpdateTime ≤ (runState m s (pre ++ [e])).prevUpdateTime) ∧
    List.Chain (fun a b => s.updateRate ≤ b - a) s.prevUpdateTime (runAccepted m s es) ∧
    List.Chain' (fun a b => a ≤ b) (runPrevUpdateTime m s es) ∧
    s.prevUpdateTime ≤ (runState m s es).prevUpdateTime := by
  refine ⟨?_, runAccepted_chain m s es, ?_, runState_prevUpdateTime_ge m s es hT⟩
  · intro pre e post _
    have hstep : runState m s (pre ++ [e]) = (OnUpdate m (runState m s pre) e).1 := by
      rw [runState_append]; rfl
    have hT' : 0 ≤ (runState m s pre).updateRate := by
      rw [(runState_config m s pre).1]; exact hT
    rw [hstep, OnUpdate_prevUpdateTime]
    refine ⟨fun h => ?_, fun h => ?_, ?_⟩
    · have h' := (accepted_iff _ e).1 h
      rw [(runState_config m s pre).1] at h'
      exact ⟨h', by simp [h]⟩
    · simp [h]
    · by_cases h : accepted (runState m s pre) e
      · have h' := (accepted_iff _ e).1 h
        simp only [h, if_true]
        linarith
      · simp [h]
  · cases es with
    | nil => simp [runPrevUpdateTime]
    | cons e es =>
      have h := runPrevUpdateTime_chain m s (e :: es) hT s.prevUpdateTime (le_refl _)
      simp only [runPrevUpdateTime] at h ⊢
      cases h with
      | cons _ h2 => exact h2

theorem tick_spacing_monotone_witness :
    (0 : ℝ) ≤ (Load ⟨none, none, none, none, none⟩ 0 : RobotControl ℝ).updateRate ∧
      List.Chain' (fun a b : ℝ => a ≤ b)
        (runPrevUpdateTime (⟨Real.cos, Real.sin⟩ : Libm ℝ)
          (Load ⟨none, none, none, none, none⟩ 0)
          [⟨7 / 100, 1, 1, 0, 0, 0⟩, ⟨3 / 100, 2, 2, 0, 0, 0⟩, ⟨13 / 100, 3, 3, 0, 0, 0⟩]) :=
  ⟨by norm_num [Load],
    (tick_spacing_monotone (⟨Real.cos, Real.sin⟩ : Libm ℝ)
      (Load ⟨none, none, none, none, none⟩ 0)
      [⟨7 / 100, 1, 1, 0, 0, 0⟩, ⟨3 / 100, 2, 2, 0, 0, 0⟩, ⟨13 / 100, 3, 3, 0, 0, 0⟩]
      (by norm_num [Load])).2.2.1⟩

/-- C4, as amended: with `updateRate = 0.05`, `prevUpdateTime = 0` and calls of `OnUpdate`
at wall-clock times 0.00, 0.02, 0.04, 0.06, 0.08, 0.10, exactly one call is let through and
exactly one odometry message is published: the call at 0.06, which sets `prevUpdateTime`
to 0.06; the call at 0.10 is only 0.04 later and is skipped. -/
theorem throttling_example (m : Libm α) (s : RobotControl α) (e0 e1 e2 e3 e4 e5 : Tick α)
    (hT : s.updateRate = 5 / 100) (hp : s.prevUpdateTime = 0)
    (h0 : e0.wallTime = 0) (h1 : e1.wallTime = 2 / 100) (h2 : e2.wallTime = 4 / 100)
    (h3 : e3.wallTime = 6 / 100) (h4 : e4.wallTime = 8 / 100) (h5 : e5.wallTime = 10 / 100) :
    runAccepted m s [e0, e1, e2, e3, e4, e5] = [6 / 100] ∧
      (runPublished m s [e0, e1, e2, e3, e4, e5]).length = 1 ∧
      runPublished m s [e0, e1, e2, e3, e4, e5] = (OnUpdate m s e3).2.toList ∧
      (runState m s [e0, e1, e2, e3, e4, e5]).prevUpdateTime = 6 / 100 ∧
      ¬ accepted (runState m s [e0, e1, e2, e3, e4]) e5 := by
  have k0 : OnUpdate m s e0 = (s, none) :=
    OnUpdate_of_lt m s e0 (by rw [h0, hp, hT]; norm_num)
  have k1 : OnUpdate m s e1 = (s, none) :=
    OnUpdate_of_lt m s e1 (by rw [h1, hp, hT]; norm_num)
  have k2 : OnUpdate m s e2 = (s, none) :=
    OnUpdate_of_lt m s e2 (by rw [h2, hp, hT]; norm_num)
  have a3 : accepted s e3 := by rw [accepted_iff, h3, hp, hT]; norm_num
  have hT3 : (OnUpdate m s e3).1.updateRate = 5 / 100 := by
    rw [(OnUpdate_config m s e3).1, hT]
  have hp3 : (OnUpdate m s e3).1.prevUpdateTime = 6 / 100 := by
    rw [OnUpdate_prevUpdateTime, if_pos a3, h3]
  have k4 : OnUpdate m (OnUpdate m s e3).1 e4 = ((OnUpdate m s e3).1, none) :=
    OnUpdate_of_lt m _ e4 (by rw [h4, hp3, hT3]; norm_num)
  have k5 : OnUpdate m (OnUpdate m s e3).1 e5 = ((OnUpdate m s e3).1, none) :=
    OnUpdate_of_lt m _ e5 (by rw [h5, hp3, hT3]; norm_num)
  have n0 : ¬ accepted s e0 := by rw [accepted_iff, h0, hp, hT]; norm_num
  have n1 : ¬ accepted s e1 := by rw [accepted_iff, h1, hp, hT]; norm_num
  have n2 : ¬ accepted s e2 := by rw [accepted_iff, h2, hp, hT]; norm_num
  have n4 : ¬ accepted (OnUpdate m s e3).1 e4 := by
    rw [accepted_iff, h4, hp3, hT3]; norm_num
  have n5 : ¬ accepted (OnUpdate m s e3).1 e5 := by
    rw [accepted_iff, h5, hp3, hT3]; norm_num
  have hacc : runAccepted m s [e0, e1, e2, e3, e4, e5] = [6 / 100] := by
    simp [runAccepted, k0, k1, k2, k4, k5, n0, n1, n2, a3, n4, n5, h3]
  have hpub : runPublished m s [e0, e1, e2, e3, e4, e5] = (OnUpdate m s e3).2.toList := by
    simp [runPublished, k0, k1, k2, k4, k5]
  refine ⟨hacc, ?_, hpub, ?_, ?_⟩
  · rw [runPublished_length, hacc]; rfl
  · simp [runState, k0, k1, k2, k4, k5, hp3]
  · simpa [runState, k0, k1, k2, k4] using n5

theorem throttling_example_witness :
    (runPublished (⟨Real.cos, Real.sin⟩ : Libm ℝ)
        (Load ⟨some (1 / 10), some (2 / 10), some (5 / 100), some 0, some 0⟩ 0)
        [⟨0, 0, 0, 0, 0, 0⟩, ⟨2 / 100, 1, 1, 0, 0, 0⟩, ⟨4 / 100, 2, 2, 0, 0, 0⟩,
          ⟨6 / 100, 3, 3, 0, 0, 0⟩, ⟨8 / 100, 4, 4, 0, 0, 0⟩,
          ⟨10 / 100, 5, 5, 0, 0, 0⟩]).length = 1 :=
  (throttling_example (⟨Real.cos, Real.sin⟩ : Libm ℝ)
    (Load ⟨some (1 / 10), some (2 / 10), some (5 / 100), some 0, some 0⟩ 0)
    ⟨0, 0, 0, 0, 0, 0⟩ ⟨2 / 100, 1, 1, 0, 0, 0⟩ ⟨4 / 100, 2, 2, 0, 0, 0⟩
    ⟨6 / 100, 3, 3, 0, 0, 0⟩ ⟨8 / 100, 4, 4, 0, 0, 0⟩ ⟨10 / 100, 5, 5, 0, 0, 0⟩
    rfl rfl rfl rfl rfl rfl rfl rfl).2.1

/-- C4 as stated fails: on the default configuration loaded at wall-clock time 0, the six
calls at 0.00, 0.02, 0.04, 0.06, 0.08, 0.10 let through the call at 0.06 only, so one
message is published, not two, and the call at 0.10 is not among the accepted ones. -/
theorem throttling_example_counterexample :
    runAccepted (⟨Real.cos, Real.sin⟩ : Libm ℝ)
        (Load ⟨none, none, none, none, none⟩ 0)
        [⟨0, 0, 0, 0, 0, 0⟩, ⟨2 / 100, 0, 0, 0, 0, 0⟩, ⟨4 / 100, 0, 0, 0, 0, 0⟩,
          ⟨6 / 100, 0, 0, 0, 0, 0⟩, ⟨8 / 100, 0, 0, 0, 0, 0⟩, ⟨10 / 100, 0, 0, 0, 0, 0⟩] =
        [6 / 100] ∧
      (runPublished (⟨Real.cos, Real.sin⟩ : Libm ℝ)
        (Load ⟨none, none, none, none, none⟩ 0)
        [⟨0, 0, 0, 0, 0, 0⟩, ⟨2 / 100, 0, 0, 0, 0, 0⟩, ⟨4 / 100, 0, 0, 0, 0, 0⟩,
          ⟨6 / 100, 0, 0, 0, 0, 0⟩, ⟨8 / 100, 0, 0, 0, 0, 0⟩,
          ⟨10 / 100, 0, 0, 0, 0, 0⟩]).length ≠ 2 := by
  constructor
  · norm_num [runAccepted, accepted, OnUpdate, Load, OnUpdate.ds, OnUpdate.dphi,
      OnUpdate.l_R, OnUpdate.l_L]
  · norm_num [runPublished, OnUpdate, Load, OnUpdate.ds, OnUpdate.dphi,
      OnUpdate.l_R, OnUpdate.l_L]

/-- C7, as amended: with `noiseOdom = 0`, `r = 0.1`, `b = 0.2`, a positive `updateRate` and
the state `Load` leaves, over any sequence of accepted calls in which both wheels show the
same angle on each call (equal advances from the common start 0).  First part, in exact
arithmetic (`cosf 0 = 1`, `sinf 0 = 0`): after every call `theta = 0`, `y = 0` and
`x = r * posRightOld`; if the last reading is 10 rad the final pose is `(1, 0, 0)`; every
call whose common advance is `10 * dt` publishes the twist `(1, 0, 0)`.  Second part, in
double arithmetic (`sinf 0 = 0`, readings of magnitude at most `2 ^ 1000`, so that nothing
overflows): `theta` and `y` are exactly 0 after every call and every call publishes
`v_y = 0` and `w_z = 0` exactly; only `x` and `v_x` are subject to rounding. -/
theorem straight_line_scenario :
    (∀ (m : Libm α), m.cosf 0 = 1 → m.sinf 0 = 0 → ∀ (T nv t0 : α), 0 < T →
      ∀ es : List (Tick α),
        AllAccepted m (Load ⟨some (1 / 10), some (2 / 10), some T, some 0, some nv⟩ t0) es →
        (∀ e ∈ es, e.posLeft = e.posRight) →
        (∀ pre post, es = pre ++ post →
          (runState m (Load ⟨some (1 / 10), some (2 / 10), some T, some 0, some nv⟩ t0)
              pre).pose =
            ⟨1 / 10 *
              (runState m (Load ⟨some (1 / 10), some (2 / 10), some T, some 0, some nv⟩ t0)
                pre).posRightOld, 0, 0⟩) ∧
        (∀ e, es.getLast? = some e → e.posRight = 10 →
          (runState m (Load ⟨some (1 / 10), some (2 / 10), some T, some 0, some nv⟩ t0)
              es).pose = ⟨1, 0, 0⟩) ∧
        (∀ pre e post, es = pre ++ e :: post →
          e.posRight =
            (runState m (Load ⟨some (1 / 10), some (2 / 10), some T, some 0, some nv⟩ t0)
                pre).posRightOld +
              10 * (e.wallTime -
                (runState m (Load ⟨some (1 / 10), some (2 / 10), some T, some 0, some nv⟩ t0)
                  pre).prevUpdateTime) →
          ∃ msg,
            (OnUpdate m
              (runState m (Load ⟨some (1 / 10), some (2 / 10), some T, some 0, some nv⟩ t0)
                pre) e).2 = some msg ∧
            msg.twist_linear_x = 1 ∧ msg.twist_linear_y = 0 ∧ msg.twist_angular_z = 0)) ∧
    (∀ (m : Libm ℚ), m.sinf 0 = 0 → ∀ (T nv t0 : ℚ), 0 < T →
      ∀ es : List (Tick ℚ),
        binary64.AllAccepted m
          (Load ⟨some (binary64.round64 (1 / 10)), some (binary64.round64 (2 / 10)), some T,
            some 0, some nv⟩ t0) es →
        (∀ e ∈ es, e.posLeft = e.posRight) →
        (∀ e ∈ es, |e.posRight| ≤ 2 ^ 1000) →
        (∀ pre post, es = pre ++ post →
          (binary64.runState m
              (Load ⟨some (binary64.round64 (1 / 10)), some (binary64.round64 (2 / 10)),
                some T, some 0, some nv⟩ t0) pre).pose.e2 = 0 ∧
            (binary64.runState m
              (Load ⟨some (binary64.round64 (1 / 10)), some (binary64.round64 (2 / 10)),
                some T, some 0, some nv⟩ t0) pre).pose.e1 = 0) ∧
        (∀ pre e post, es = pre ++ e :: post →
          ∃ msg,
            (binary64.OnUpdate m
              (binary64.runState m
                (Load ⟨some (binary64.round64 (1 / 10)), some (binary64.round64 (2 / 10)),
                  some T, some 0, some nv⟩ t0) pre) e).2 = some msg ∧
            msg.twist_linear_y = 0 ∧ msg.twist_angular_z = 0)) := by
  refine ⟨fun m hc hsin T nv t0 hT es hacc heq =>
    straight_line_exact m hc hsin T nv t0 hT es hacc heq, ?_⟩
  intro m hsin T nv t0 hT es hacc heq _
  generalize hs0 : (Load ⟨some (binary64.round64 (1 / 10)), some (binary64.round64 (2 / 10)),
    some T, some 0, some nv⟩ t0 : RobotControl ℚ) = s0 at hacc ⊢
  have hn0 : s0.noiseOdom = 0 := by rw [← hs0]; rfl
  have hT0 : s0.updateRate = T := by rw [← hs0]; rfl
  have hL0 : binary64.StraightLine s0 := by
    rw [← hs0]; exact ⟨rfl, rfl, rfl⟩
  have hinv : ∀ pre post, es = pre ++ post →
      binary64.StraightLine (binary64.runState m s0 pre) := by
    intro pre post hes
    refine binary64.StraightLine_run_double m hsin s0 pre hn0 hL0 ?_
    intro e he
    exact heq e (by rw [hes]; exact List.mem_append_left _ he)
  refine ⟨fun pre post hes => ⟨(hinv pre post hes).1, (hinv pre post hes).2.1⟩, ?_⟩
  intro pre e post hes
  obtain ⟨c1, c2⟩ := binary64.runState_config_double m s0 pre
  refine binary64.twist_of_equal_wheels m hsin _ e (by rw [c1, hn0]) (hinv pre _ hes)
    (heq e (by rw [hes]; simp)) (by rw [c2, hT0]; exact hT) ?_
  rw [hes] at hacc
  exact (binary64.AllAccepted_append_double m s0 pre (e :: post) hacc).2.1

theorem straight_line_scenario_witness :
    (runState (⟨Real.cos, Real.sin⟩ : Libm ℝ)
        (Load ⟨some (1 / 10), some (2 / 10), some (1 / 10), some 0, some 0⟩ 0)
        [⟨1 / 2, 5, 5, 0, 0, 0⟩, ⟨1, 10, 10, 0, 0, 0⟩]).pose = ⟨1, 0, 0⟩ ∧
      (binary64.runState binary64.libmAtZero binary64.endToEnd binary64.tenTicks).pose.e1 = 0 :=
  ⟨(straight_line_scenario.1 (⟨Real.cos, Real.sin⟩ : Libm ℝ) Real.cos_zero Real.sin_zero
      (1 / 10) 0 0 (by norm_num)
      [⟨1 / 2, 5, 5, 0, 0, 0⟩, ⟨1, 10, 10, 0, 0, 0⟩]
      (by norm_num [AllAccepted, accepted, OnUpdate, Load])
      (by simp)).2.1 ⟨1, 10, 10, 0, 0, 0⟩ rfl rfl,
    (((@straight_line_scenario ℚ _).2 binary64.libmAtZero rfl (binary64.round64 (1 / 10)) 0 0
      (by decide!) binary64.tenTicks (by decide!) (by decide!)
      (by norm_num [binary64.tenTicks])).1 binary64.tenTicks [] (by simp)).2⟩

/-- C7 as stated fails in the code's double arithmetic.  In the end-to-end configuration,
for every `cosf`, `sinf` with `cosf 0 = 1` and `sinf 0 = 0`: ten accepted calls between
which both wheels advance by 1 rad (10 rad in total) leave the pose
`(1 - 2^-53, 0, 0)`, that is `x = 0.9999999999999999`, not `(1, 0, 0)`; and one accepted
call with `dt = 0.3` and common wheel advance `3 = 10 * dt` (in doubles) publishes
`v_x = 1 + 2^-52`, that is `1.0000000000000002`, not `1`. -/
theorem straight_line_scenario_counterexample :
    (∀ m : Libm ℚ, m.cosf 0 = 1 → m.sinf 0 = 0 →
      binary64.AllAccepted m binary64.endToEnd binary64.tenTicks ∧
        (binary64.runState m binary64.endToEnd binary64.tenTicks).pose =
          ⟨1 - 1 / 2 ^ 53, 0, 0⟩) ∧
    (¬ ∃ m : Libm ℚ, m.cosf 0 = 1 ∧ m.sinf 0 = 0 ∧
      (binary64.runState m binary64.endToEnd binary64.tenTicks).pose = ⟨1, 0, 0⟩) ∧
    (∀ m : Libm ℚ, m.cosf 0 = 1 → m.sinf 0 = 0 →
      binary64.accepted binary64.endToEnd binary64.threeRadTick ∧
        binary64.fsub binary64.threeRadTick.posRight binary64.endToEnd.posRightOld =
          binary64.fmul 10
            (binary64.fsub binary64.threeRadTick.wallTime binary64.endToEnd.prevUpdateTime) ∧
        ∃ msg, (binary64.OnUpdate m binary64.endToEnd binary64.threeRadTick).2 = some msg ∧
          msg.twist_linear_x = 1 + 1 / 2 ^ 52 ∧ msg.twist_linear_x ≠ 1) := by
  have hn : binary64.endToEnd.noiseOdom = 0 := rfl
  have hS : binary64.StraightLine binary64.endToEnd := ⟨rfl, rfl, rfl⟩
  have heq : ∀ e ∈ binary64.tenTicks, e.posLeft = e.posRight := by decide!
  have hacc : binary64.AllAccepted binary64.libmAtZero binary64.endToEnd binary64.tenTicks := by
    decide!
  have h0 : (binary64.runState binary64.libmAtZero binary64.endToEnd
      binary64.tenTicks).pose.e0 = 1 - 1 / 2 ^ 53 := by decide!
  have h1 : (binary64.runState binary64.libmAtZero binary64.endToEnd
      binary64.tenTicks).pose.e1 = 0 := by decide!
  have h2 : (binary64.runState binary64.libmAtZero binary64.endToEnd
      binary64.tenTicks).pose.e2 = 0 := by decide!
  have hpose : ∀ m : Libm ℚ, m.cosf 0 = 1 → m.sinf 0 = 0 →
      (binary64.runState m binary64.endToEnd binary64.tenTicks).pose =
        ⟨1 - 1 / 2 ^ 53, 0, 0⟩ := by
    intro m hc hsin
    rw [(binary64.run_congr m hc hsin _ _ hn hS heq).1]
    rcases hq : (binary64.runState binary64.libmAtZero binary64.endToEnd
      binary64.tenTicks).pose with ⟨a, b, c⟩
    rw [hq] at h0 h1 h2
    simp only at h0 h1 h2
    rw [h0, h1, h2]
  refine ⟨fun m hc hsin => ⟨(binary64.run_congr m hc hsin _ _ hn hS heq).2.2 hacc,
    hpose m hc hsin⟩, ?_, ?_⟩
  · rintro ⟨m, hc, hsin, h⟩
    rw [hpose m hc hsin] at h
    have h' := congrArg Array3.e0 h
    norm_num at h'
  · intro m hc hsin
    refine ⟨by decide!, by decide!, ?_⟩
    rw [binary64.OnUpdate_congr m hc hsin _ _ hS.1]
    have hv : ((binary64.OnUpdate binary64.libmAtZero binary64.endToEnd
        binary64.threeRadTick).2.map Odometry.twist_linear_x) = some (1 + 1 / 2 ^ 52) := by
      decide!
    rcases hq : (binary64.OnUpdate binary64.libmAtZero binary64.endToEnd
        binary64.threeRadTick).2 with _ | msg
    · rw [hq] at hv; simp at hv
    · rw [hq] at hv
      simp only [Option.map_some', Option.some.injEq] at hv
      exact ⟨msg, rfl, hv, by rw [hv]; norm_num⟩

/-- C8, as amended: in the end-to-end configuration (`noiseOdom = 0`, `r = 0.1`, `b = 0.2`,
state as `Load` leaves it), after any sequence of calls the heading is the initial heading 0
plus the sum of the per-call `dphi`, which is `(l_R - l_L)/(2*b)` for the total arcs
`l_R = r * posRightOld`, `l_L = r * posLeftOld`; so for accepted calls whose arcs total
`l_R = p/2 + p/4` and `l_L = p/2 - p/4` (with `p = π`), however they are split, the final
heading is `5*p/4`, not `p/2`. -/
theorem quarter_turn_heading (m : Libm α) (T nv t0 : α) (es : List (Tick α))
    (hacc : AllAccepted m (Load ⟨some (1 / 10), some (2 / 10), some T, some 0, some nv⟩ t0) es) :
    (runState m (Load ⟨some (1 / 10), some (2 / 10), some T, some 0, some nv⟩ t0) es).pose.e2 =
        0 + (runDphi m (Load ⟨some (1 / 10), some (2 / 10), some T, some 0, some nv⟩ t0)
          es).sum ∧
    (runState m (Load ⟨some (1 / 10), some (2 / 10), some T, some 0, some nv⟩ t0) es).pose.e2 =
        (1 / 10 *
            (runState m (Load ⟨some (1 / 10), some (2 / 10), some T, some 0, some nv⟩ t0)
              es).posRightOld -
          1 / 10 *
            (runState m (Load ⟨some (1 / 10), some (2 / 10), some T, some 0, some nv⟩ t0)
              es).posLeftOld) / (2 * (2 / 10)) ∧
    (∀ (e : Tick α) (p : α), es.getLast? = some e →
      1 / 10 * e.posRight = p / 2 + p / 4 → 1 / 10 * e.posLeft = p / 2 - p / 4 →
        (runState m (Load ⟨some (1 / 10), some (2 / 10), some T, some 0, some nv⟩ t0)
          es).pose.e2 = 5 * p / 4) := by
  generalize hs0 : (Load ⟨some (1 / 10), some (2 / 10), some T, some 0, some nv⟩ t0 :
    RobotControl α) = s0 at hacc ⊢
  have hr0 : s0.radius = 1 / 10 := by rw [← hs0]; rfl
  have hb0 : s0.axisDistance = 2 / 10 := by rw [← hs0]; rfl
  have hn0 : s0.noiseOdom = 0 := by rw [← hs0]; rfl
  have hp0 : s0.pose.e2 = 0 := by rw [← hs0]; rfl
  have hR0 : s0.posRightOld = 0 := by rw [← hs0]; rfl
  have hL0 : s0.posLeftOld = 0 := by rw [← hs0]; rfl
  have harcs := runState_heading_arcs m s0 es hn0
  rw [hr0, hb0, hp0, hR0, hL0] at harcs
  have hsum := runState_heading_sum m s0 es
  rw [hp0] at hsum
  refine ⟨hsum, ?_, ?_⟩
  · rw [harcs]; ring
  · intro e p hl hR hL
    obtain ⟨k1, k2⟩ := runState_last m s0 es e hacc hl
    rw [harcs, k1, k2, sub_zero, sub_zero, hR, hL]
    ring

theorem quarter_turn_heading_witness :
    (runState (⟨Real.cos, Real.sin⟩ : Libm ℝ)
        (Load ⟨some (1 / 10), some (2 / 10), some (1 / 10), some 0, some 0⟩ 0)
        [⟨1 / 2, 1, 4, 0, 0, 0⟩,
          ⟨1, 10 * (Real.pi / 2 - Real.pi / 4), 10 * (Real.pi / 2 + Real.pi / 4),
            0, 0, 0⟩]).pose.e2 = 5 * Real.pi / 4 :=
  (quarter_turn_heading (⟨Real.cos, Real.sin⟩ : Libm ℝ) (1 / 10) 0 0
    [⟨1 / 2, 1, 4, 0, 0, 0⟩,
      ⟨1, 10 * (Real.pi / 2 - Real.pi / 4), 10 * (Real.pi / 2 + Real.pi / 4), 0, 0, 0⟩]
    (by norm_num [AllAccepted, accepted, OnUpdate, Load])).2.2
    ⟨1, 10 * (Real.pi / 2 - Real.pi / 4), 10 * (Real.pi / 2 + Real.pi / 4), 0, 0, 0⟩
    Real.pi rfl (by ring) (by ring)

/-- C8 as stated fails: in the end-to-end configuration one accepted call whose wheel arcs are
`l_R = π/2 + π/4` and `l_L = π/2 - π/4` leaves the heading `5π/4`, which is not `π/2`. -/
theorem quarter_turn_heading_counterexample :
    AllAccepted (⟨Real.cos, Real.sin⟩ : Libm ℝ)
        (Load ⟨some (1 / 10), some (2 / 10), some (1 / 10), some 0, some 0⟩ 0)
        [⟨1, 10 * (Real.pi / 2 - Real.pi / 4), 10 * (Real.pi / 2 + Real.pi / 4), 0, 0, 0⟩] ∧
      OnUpdate.l_R (Load ⟨some (1 / 10), some (2 / 10), some (1 / 10), some 0, some 0⟩ 0)
        (⟨1, 10 * (Real.pi / 2 - Real.pi / 4), 10 * (Real.pi / 2 + Real.pi / 4), 0, 0, 0⟩ :
          Tick ℝ) = Real.pi / 2 + Real.pi / 4 ∧
      OnUpdate.l_L (Load ⟨some (1 / 10), some (2 / 10), some (1 / 10), some 0, some 0⟩ 0)
        (⟨1, 10 * (Real.pi / 2 - Real.pi / 4), 10 * (Real.pi / 2 + Real.pi / 4), 0, 0, 0⟩ :
          Tick ℝ) = Real.pi / 2 - Real.pi / 4 ∧
      (runState (⟨Real.cos, Real.sin⟩ : Libm ℝ)
        (Load ⟨some (1 / 10), some (2 / 10), some (1 / 10), some 0, some 0⟩ 0)
        [⟨1, 10 * (Real.pi / 2 - Real.pi / 4), 10 * (Real.pi / 2 + Real.pi / 4),
          0, 0, 0⟩]).pose.e2 = 5 * Real.pi / 4 ∧
      (runState (⟨Real.cos, Real.sin⟩ : Libm ℝ)
        (Load ⟨some (1 / 10), some (2 / 10), some (1 / 10), some 0, some 0⟩ 0)
        [⟨1, 10 * (Real.pi / 2 - Real.pi / 4), 10 * (Real.pi / 2 + Real.pi / 4),
          0, 0, 0⟩]).pose.e2 ≠ Real.pi / 2 := by
  have hθ : (runState (⟨Real.cos, Real.sin⟩ : Libm ℝ)
        (Load ⟨some (1 / 10), some (2 / 10), some (1 / 10), some 0, some 0⟩ 0)
        [⟨1, 10 * (Real.pi / 2 - Real.pi / 4), 10 * (Real.pi / 2 + Real.pi / 4),
          0, 0, 0⟩]).pose.e2 = 5 * Real.pi / 4 := by
    norm_num [runState, OnUpdate, Load, OnUpdate.dphi, OnUpdate.l_R, OnUpdate.l_L,
      normal_distribution]
    ring
  refine ⟨by norm_num [AllAccepted, accepted, Load], ?_, ?_, hθ, ?_⟩
  · norm_num [OnUpdate.l_R, Load, normal_distribution]
    ring
  · norm_num [OnUpdate.l_L, Load, normal_distribution]
    ring
  · rw [hθ]
    have := Real.pi_pos
    intro h
    linarith

end gazebo
